import Mathlib

/-!
Verification of the handwritten-text-recognition training pipeline:
the dataset partitioner and geometric transforms of
`src/data_loader/data_loader.py`, the pipeline-selection logic of
`get_data`, and the masked sequence loss of
`src/models/loss/sequenceCrossEntropyLoss.py`.

Conventions of the embedding:
* `np.random.shuffle` of a range is modelled by quantifying over an
  arbitrary list that is a permutation (`List.Perm`) of the range, so
  every statement about "for every seed" is proved for every possible
  shuffle outcome.
* Python / NumPy machine integers are modelled by `ℕ` / `ℤ` (no value in
  the program approaches an overflow boundary), Python floats by `ℚ`
  (exact arithmetic), and tensors by nested lists.
* Fallible operations (assertions, index errors, shape errors) are
  modelled with `Except String`.
-/

namespace HTR

/-- Index range of the scanned-form provenance group,
`np.arange(0, 51000)` in `get_data`. -/
def formRange : List ℕ := List.range 51000

/-- Index range of the in-the-wild provenance group,
`np.arange(51000, 99000)` in `get_data`. -/
def wildRange : List ℕ := (List.range 48000).map (fun k => 51000 + k)

/-- Index range of the synthetic (GAN) provenance group,
`np.arange(99000, 103000)` in `get_data`. -/
def ganRange : List ℕ := (List.range 4000).map (fun k => 99000 + k)

/-- Training index list built by `get_data` in training mode before any
sample cap: `np.concatenate([form_inds[5100:], wild_inds[4800:], gan_inds])`,
where `formPerm` and `wildPerm` are the shuffled form and wild ranges. -/
def trainInds (formPerm wildPerm : List ℕ) : List ℕ :=
  formPerm.drop 5100 ++ wildPerm.drop 4800 ++ ganRange

/-- Validation index list built by `get_data` in training mode:
`np.concatenate([form_inds[:5100], wild_inds[:4800]])`. -/
def valInds (formPerm wildPerm : List ℕ) : List ℕ :=
  formPerm.take 5100 ++ wildPerm.take 4800

theorem mem_formRange {x : ℕ} : x ∈ formRange ↔ x < 51000 := by
  simp [formRange]

theorem mem_wildRange {x : ℕ} : x ∈ wildRange ↔ 51000 ≤ x ∧ x < 99000 := by
  simp only [wildRange, List.mem_map, List.mem_range]
  constructor
  · rintro ⟨a, ha, rfl⟩
    omega
  · intro h
    exact ⟨x - 51000, by omega, by omega⟩

theorem mem_ganRange {x : ℕ} : x ∈ ganRange ↔ 99000 ≤ x ∧ x < 103000 := by
  simp only [ganRange, List.mem_map, List.mem_range]
  constructor
  · rintro ⟨a, ha, rfl⟩
    omega
  · intro h
    exact ⟨x - 99000, by omega, by omega⟩

/-- C1: in training mode with no sample cap, validation is exactly the
first 5100 shuffled form indices followed by the first 4800 shuffled wild
indices, training is the remaining form and wild indices followed by the
whole synthetic range, and no synthetic index (≥ 99000) is in validation. -/
theorem c1_partition_layout (fp wp : List ℕ)
    (hf : fp.Perm formRange) (hw : wp.Perm wildRange) :
    valInds fp wp = fp.take 5100 ++ wp.take 4800 ∧
    trainInds fp wp = fp.drop 5100 ++ wp.drop 4800 ++ ganRange ∧
    ∀ x ∈ valInds fp wp, x < 99000 := by
  refine ⟨rfl, rfl, ?_⟩
  intro x hx
  rcases List.mem_append.1 hx with h | h
  · have hx' : x ∈ formRange := hf.mem_iff.1 (List.mem_of_mem_take h)
    have := mem_formRange.1 hx'
    omega
  · have hx' : x ∈ wildRange := hw.mem_iff.1 (List.mem_of_mem_take h)
    have := mem_wildRange.1 hx'
    omega

/-- Boolean bound used by the witness of `c1_partition_layout`. -/
def belowSynthetic (x : ℕ) : Bool := x < 99000

theorem c1_partition_layout_witness :
    (valInds formRange wildRange).all belowSynthetic = true := by
  rw [List.all_eq_true]
  intro x hx
  exact decide_eq_true
    ((c1_partition_layout formRange wildRange (List.Perm.refl _)
      (List.Perm.refl _)).2.2 x hx)

theorem wildRange_nodup : wildRange.Nodup :=
  List.Nodup.map (fun a b hab => Nat.add_left_cancel hab) (List.nodup_range 48000)

/-- Splitting membership in a list into the `take`/`drop` halves. -/
theorem mem_take_or_drop {x : ℕ} (l : List ℕ) (n : ℕ) :
    x ∈ l ↔ x ∈ l.take n ∨ x ∈ l.drop n := by
  conv_lhs => rw [← List.take_append_drop n l]
  exact List.mem_append

/-- C2: in training mode with no sample cap, the train and validation
index lists are disjoint and together cover exactly the corpus range
[0, 103000). -/
theorem c2_partition_disjoint_cover (fp wp : List ℕ)
    (hf : fp.Perm formRange) (hw : wp.Perm wildRange) :
    (trainInds fp wp).Disjoint (valInds fp wp) ∧
    ∀ x : ℕ, (x ∈ trainInds fp wp ∨ x ∈ valInds fp wp) ↔ x < 103000 := by
  have hnf : fp.Nodup := hf.nodup_iff.2 (List.nodup_range 51000)
  have hnw : wp.Nodup := hw.nodup_iff.2 wildRange_nodup
  have hfb : ∀ x ∈ fp, x < 51000 := fun x hx =>
    mem_formRange.1 (hf.mem_iff.1 hx)
  have hwb : ∀ x ∈ wp, 51000 ≤ x ∧ x < 99000 := fun x hx =>
    mem_wildRange.1 (hw.mem_iff.1 hx)
  constructor
  · intro a ha hav
    rcases List.mem_append.1 ha with ha' | hgan
    · rcases List.mem_append.1 ha' with hfd | hwd
      · rcases List.mem_append.1 hav with hft | hwt
        · exact List.disjoint_take_drop hnf le_rfl hft hfd
        · have h1 := hfb a (List.mem_of_mem_drop hfd)
          have h2 := (hwb a (List.mem_of_mem_take hwt)).1
          omega
      · rcases List.mem_append.1 hav with hft | hwt
        · have h1 := (hwb a (List.mem_of_mem_drop hwd)).1
          have h2 := hfb a (List.mem_of_mem_take hft)
          omega
        · exact List.disjoint_take_drop hnw le_rfl hwt hwd
    · have h1 := (mem_ganRange.1 hgan).1
      rcases List.mem_append.1 hav with hft | hwt
      · have h2 := hfb a (List.mem_of_mem_take hft)
        omega
      · have h2 := (hwb a (List.mem_of_mem_take hwt)).2
        omega
  · intro x
    simp only [trainInds, valInds, List.mem_append]
    constructor
    · rintro (((hfd | hwd) | hgan) | hft | hwt)
      · have := hfb x (List.mem_of_mem_drop hfd); omega
      · have := (hwb x (List.mem_of_mem_drop hwd)).2; omega
      · exact (mem_ganRange.1 hgan).2
      · have := hfb x (List.mem_of_mem_take hft); omega
      · have := (hwb x (List.mem_of_mem_take hwt)).2; omega
    · intro hx
      by_cases h51 : x < 51000
      · have hxf : x ∈ fp := hf.mem_iff.2 (mem_formRange.2 h51)
        rcases (mem_take_or_drop fp 5100).1 hxf with h | h
        · exact Or.inr (Or.inl h)
        · exact Or.inl (Or.inl (Or.inl h))
      · by_cases h99 : x < 99000
        · have hxw : x ∈ wp := hw.mem_iff.2 (mem_wildRange.2 ⟨by omega, h99⟩)
          rcases (mem_take_or_drop wp 4800).1 hxw with h | h
          · exact Or.inr (Or.inr h)
          · exact Or.inl (Or.inl (Or.inr h))
        · exact Or.inl (Or.inr (mem_ganRange.2 ⟨by omega, hx⟩))

theorem c2_partition_disjoint_cover_witness :
    (trainInds formRange wildRange).Disjoint (valInds formRange wildRange) ∧
    (0 ∈ trainInds formRange wildRange ∨ 0 ∈ valInds formRange wildRange) := by
  have h := c2_partition_disjoint_cover formRange wildRange
    (List.Perm.refl _) (List.Perm.refl _)
  exact ⟨h.1, (h.2 0).2 (by norm_num)⟩

/-- Embedding of `FixedHeightResize.__call__` on an image of height `h` and width `w`
(PIL reports `img.size = (w, h)`): `aspect_ratio = h / w`,
`new_w = math.ceil(size / aspect_ratio)`, result `F.resize(img, (size, new_w))`.
Python float arithmetic is modelled as exact rational arithmetic; the
result is the (height, width) pair of the resized image. -/
def fixedHeightResize (size h w : ℤ) : ℤ × ℤ :=
  (size, Int.ceil ((size : ℚ) / ((h : ℚ) / (w : ℚ))))

/-- The padding amounts of `FixedWidthPad.__call__`: `pad = size - w`,
`pad_left = pad // 2` (Python floor division), `pad_right = pad - pad_left`. -/
def padAmounts (size w : ℤ) : ℤ × ℤ :=
  let pad := size - w
  let padLeft := Int.fdiv pad 2
  (padLeft, pad - padLeft)

/-- Embedding of `FixedWidthPad.__call__` on an image of height `h` and width `w`:
`F.pad(img, (pad_left, 0, pad_right, 0), 0, constant)`. torchvision's
`F.pad` yields dimensions `(h + top + bottom, w + left + right)`,
negative entries cropping the corresponding border. -/
def fixedWidthPad (size h w : ℤ) : ℤ × ℤ :=
  (h, w + (padAmounts size w).1 + (padAmounts size w).2)

/-- C3: fixed-height resize to height `H` followed by fixed-width pad to
width `W` yields an image of exactly height `H` and width `W`; a
100×50 (h×w) image at target height 32 resizes to width 16 and pads to
width 32 with `pad_left = 8`, `pad_right = 8`. -/
theorem c3_resize_then_pad (H W h w : ℤ) (hh : 0 < h) (hw : 0 < w) :
    fixedWidthPad W (fixedHeightResize H h w).1 (fixedHeightResize H h w).2
      = (H, W) ∧
    fixedHeightResize 32 100 50 = (32, 16) ∧
    padAmounts 32 16 = (8, 8) := by
  refine ⟨?_, ?_, ?_⟩
  · simp only [fixedWidthPad, fixedHeightResize, padAmounts]
    exact congrArg (Prod.mk H) (by ring)
  · have : ((32 : ℚ) / ((100 : ℚ) / (50 : ℚ))) = 16 := by norm_num
    simp [fixedHeightResize, this]
  · decide

theorem c3_resize_then_pad_witness :
    fixedWidthPad 32 (fixedHeightResize 32 100 50).1
      (fixedHeightResize 32 100 50).2 = (32, 32) ∧
    fixedHeightResize 32 100 50 = (32, 16) := by
  have h := c3_resize_then_pad 32 32 100 50 (by norm_num) (by norm_num)
  exact ⟨h.1, h.2.1⟩

/-- C9: for every input image `FixedWidthPad` returns width exactly `W`
at unchanged height, with `pad_left = (W - w) // 2` (Python floor
division, `Int.fdiv`) and `pad_left + pad_right = pad = W - w` always,
`pad_left ≤ pad_right`; when the input is wider than `W` the pad
`W - w` is negative and both amounts are ≤ 0, so the negative padding
crops symmetrically; `fixedWidthPad` is total, so the overflow case
does not error. -/
theorem c9_pad_total (W h w : ℤ) :
    fixedWidthPad W h w = (h, W) ∧
    (padAmounts W w).1 = Int.fdiv (W - w) 2 ∧
    (padAmounts W w).1 + (padAmounts W w).2 = W - w ∧
    (padAmounts W w).1 ≤ (padAmounts W w).2 ∧
    (W < w → W - w < 0 ∧ (padAmounts W w).1 ≤ 0 ∧ (padAmounts W w).2 ≤ 0) := by
  have hfd : Int.fdiv (W - w) 2 = (W - w) / 2 :=
    Int.fdiv_eq_ediv _ (by norm_num)
  refine ⟨?_, rfl, ?_, ?_, ?_⟩
  · simp only [fixedWidthPad, padAmounts, hfd]
    exact congrArg (Prod.mk h) (by ring)
  · simp only [padAmounts, hfd]
    ring
  · simp only [padAmounts, hfd]
    omega
  · intro hlt
    simp only [padAmounts, hfd]
    refine ⟨by omega, by omega, by omega⟩

theorem c9_pad_total_witness :
    fixedWidthPad 4 5 9 = (5, 4) ∧
    (4 : ℤ) - 9 < 0 ∧ (padAmounts 4 9).1 ≤ 0 ∧ (padAmounts 4 9).2 ≤ 0 := by
  have h := c9_pad_total 4 5 9
  exact ⟨h.1, h.2.2.2.2 (by norm_num)⟩

/-- Geometric-normalization branch taken by `get_data`. -/
inductive GeomMode
  | stretch
  | fixedHeight
  deriving DecidableEq

/-- Dataset / collate selection taken by `get_data`. -/
inductive DatasetChoice
  | ctcDataset
  | v2Dataset
  deriving DecidableEq

/-- Branch `if args.resize == 1:` in `get_data`: the stretch branch for 1 and the
fixed-height branch for every other value; `get_data` contains no raise
statement. -/
def selectGeom (resize : ℤ) : GeomMode :=
  if resize = 1 then GeomMode.stretch else GeomMode.fixedHeight

/-- Branch `if args.model_name in [crnn, cnnctc]:` in `get_data`: the CTC
dataset/collate pair for those two names and the V2 pair for every other
name; no raise statement exists. -/
def selectDataset (modelName : String) : DatasetChoice :=
  if modelName = "crnn" ∨ modelName = "cnnctc" then DatasetChoice.ctcDataset
  else DatasetChoice.v2Dataset

/-- C5 counterexample: an unsupported resize mode (2) and an unsupported
model name (resnet) do not fail pipeline construction: `get_data` has no
ValueError path and silently selects the fixed-height branch and the V2
dataset. -/
theorem c5_counterexample :
    selectGeom 2 = GeomMode.fixedHeight ∧
    selectDataset "resnet" = DatasetChoice.v2Dataset := by
  constructor <;> decide

/-- C5 amended: every resize value other than 1 selects the fixed-height
branch and every model name outside the two CTC names selects the V2
dataset; construction never raises. -/
theorem c5_amended_defaults :
    (∀ r : ℤ, r ≠ 1 → selectGeom r = GeomMode.fixedHeight) ∧
    (∀ n : String, n ≠ "crnn" → n ≠ "cnnctc" →
      selectDataset n = DatasetChoice.v2Dataset) := by
  constructor
  · intro r hr
    simp [selectGeom, hr]
  · intro n h1 h2
    simp [selectDataset, h1, h2]

theorem c5_amended_defaults_witness :
    selectGeom 7 = GeomMode.fixedHeight ∧
    selectDataset "vit" = DatasetChoice.v2Dataset :=
  ⟨c5_amended_defaults.1 7 (by decide),
   c5_amended_defaults.2 "vit" (by decide) (by decide)⟩

/-- C6 counterexample: the partitioner consults no corpus size and has no
error path at all — its range boundaries are the fixed constants 51000,
99000, 103000 — so for any corpus (also one of size 10, smaller than every
boundary) it still produces full index sets (93100 train indices,
including synthetic index 99000) instead of failing with a
ConfigurationError. -/
theorem c6_counterexample :
    (trainInds formRange wildRange).length = 93100 ∧
    99000 ∈ trainInds formRange wildRange := by
  constructor
  · simp only [trainInds, formRange, wildRange, ganRange, List.length_append,
      List.length_drop, List.length_map, List.length_range]
  · simp only [trainInds, List.mem_append]
    exact Or.inr (mem_ganRange.2 ⟨le_rfl, by norm_num⟩)

/-- C6 amended: the partitioner performs no configuration validation:
for every shuffle outcome it unconditionally produces 93100 training
indices and 9900 validation indices. -/
theorem c6_amended_no_validation (fp wp : List ℕ)
    (hf : fp.Perm formRange) (hw : wp.Perm wildRange) :
    (trainInds fp wp).length = 93100 ∧ (valInds fp wp).length = 9900 := by
  have hfl : fp.length = 51000 := by
    simpa [formRange] using hf.length_eq
  have hwl : wp.length = 48000 := by
    simpa [wildRange] using hw.length_eq
  constructor
  · simp only [trainInds, ganRange, List.length_append, List.length_drop,
      List.length_map, List.length_range, hfl, hwl]
  · simp only [valInds, List.length_append, List.length_take, hfl, hwl]
    omega

theorem c6_amended_no_validation_witness :
    (trainInds formRange wildRange).length = 93100 ∧
    (valInds formRange wildRange).length = 9900 :=
  c6_amended_no_validation formRange wildRange (List.Perm.refl _)
    (List.Perm.refl _)

/-- The configuration stored by `SequenceCrossEntropyLoss.__init__`. -/
structure SCELoss where
  weight : Option (List ℚ)
  size_average : Bool
  ignore_index : ℤ
  sequence_normalize : Bool
  sample_normalize : Bool

/-- Embedding of `SequenceCrossEntropyLoss.__init__`: stores the five arguments and
asserts `(sequence_normalize and sample_normalize) == False`. -/
def SCELoss.init (weight : Option (List ℚ)) (sizeAverage : Bool)
    (ignoreIndex : ℤ) (seqNorm sampNorm : Bool) : Except String SCELoss :=
  if seqNorm && sampNorm then
    Except.error "AssertionError: sequence_normalize and sample_normalize"
  else
    Except.ok ⟨weight, sizeAverage, ignoreIndex, seqNorm, sampNorm⟩

/-- The loss module built with all-default constructor arguments. -/
def defaultSCELoss : SCELoss := ⟨none, true, -100, false, true⟩

/-- The effective stop of a Python slice `[:s]` on a sequence of length
`L`: a negative stop wraps to `L + s` (floored at 0), a nonnegative stop
clamps at `L`. -/
def pySliceStop (s : ℤ) (L : ℕ) : ℕ :=
  if s < 0 then ((L : ℤ) + s).toNat else min s.toNat L

/-- Row `i` of the mask built by `mask[i, :length[i]].fill_(1)` on a row
of `torch.zeros(batch_size, def_max_length)`. -/
def maskRow (len : ℤ) (L : ℕ) : List ℚ :=
  (List.range L).map (fun t => if t < pySliceStop len L then (1 : ℚ) else 0)

/-- The mask-building loop `for i in range(batch_size)`: reads
`length[i]` for each `i < batch`, so it raises an IndexError when
`length` has fewer than `batch` entries; extra entries are ignored. -/
def buildMask (length : List ℤ) (batch L : ℕ) :
    Except String (List (List ℚ)) :=
  if batch ≤ length.length then
    Except.ok ((length.take batch).map (fun li => maskRow li L))
  else
    Except.error "IndexError: length[i]"

/-- Embedding of `input.gather(1, target)` on a 2-d input with rows `rows` and a
one-column index tensor `idx`: row `r` of the result is
`rows[r][idx[r]]`. torch.gather allows the index tensor to be shorter
than the input on the non-gather dimension (extra input rows are
ignored) and errors when it is longer or when an index is out of its
row's bounds. -/
def gatherCol : List (List ℚ) → List ℤ → Except String (List ℚ)
  | _, [] => Except.ok []
  | [], _ :: _ => Except.error "gather: index longer than input"
  | row :: rows, j :: js =>
      if 0 ≤ j ∧ j.toNat < row.length then
        match gatherCol rows js with
        | Except.ok vs => Except.ok (row.getD j.toNat 0 :: vs)
        | Except.error e => Except.error e
      else
        Except.error "gather: index out of bounds"

/-- Embedding of `SequenceCrossEntropyLoss.forward`. Here `lsm` models
`F.log_softmax(·, dim=1)` applied to one row of the flattened input
(log-softmax is transcendental, so the embedding takes it as a
parameter and every theorem quantifies over it). The steps mirror the
source line by line: sizes from `target`, mask from `length` (Python
slice semantics), `max_length = max(length)`, the assertion
`max_length == input.size(1)`, truncation of `target` and `mask` to
`max_length` columns, flattening, log-softmax, gather of the target
log-probabilities, negation and masking, sum, and the two optional
normalizations in source order. Size-1 tensor broadcasting of the
elementwise product is not modelled (no claim exercises it). -/
def SCELoss.forward (cfg : SCELoss) (lsm : List ℚ → List ℚ)
    (input : List (List (List ℚ))) (target : List (List ℤ))
    (length : List ℤ) : Except String ℚ :=
  let batchSize := target.length
  let defMaxLength := (target.head?.getD []).length
  match buildMask length batchSize defMaxLength with
  | Except.error e => Except.error e
  | Except.ok mask =>
    match length.max? with
    | none => Except.error "max(): empty"
    | some maxLength =>
      if maxLength = ((input.head?.getD []).length : ℤ) then
        let tcols := pySliceStop maxLength defMaxLength
        let target2 := target.map (List.take tcols)
        let mask2 := mask.map (List.take tcols)
        let inputFlat := input.flatten.map lsm
        let targetFlat := target2.flatten
        let maskFlat := mask2.flatten
        match gatherCol inputFlat targetFlat with
        | Except.error e => Except.error e
        | Except.ok gathered =>
          if gathered.length = maskFlat.length then
            let s := ((gathered.zip maskFlat).map (fun p => -p.1 * p.2)).sum
            let s1 := if cfg.sequence_normalize then s / maskFlat.sum else s
            let s2 := if cfg.sample_normalize then s1 / (batchSize : ℚ) else s1
            Except.ok s2
          else
            Except.error "shape mismatch: output * mask"
      else
        Except.error "AssertionError: max_length == input.size(1)"

/-- C10: `forward` reads only the two normalization flags of the module:
two instances that agree on those but differ arbitrarily in `weight`,
`size_average` and `ignore_index` compute identical results on every
input, because those three stored fields are never read. -/
theorem c10_unused_ctor_args (w1 w2 : Option (List ℚ)) (sa1 sa2 : Bool)
    (ii1 ii2 : ℤ) (seqNorm sampNorm : Bool) (lsm : List ℚ → List ℚ)
    (input : List (List (List ℚ))) (target : List (List ℤ))
    (length : List ℤ) :
    SCELoss.forward ⟨w1, sa1, ii1, seqNorm, sampNorm⟩ lsm input target length
      = SCELoss.forward ⟨w2, sa2, ii2, seqNorm, sampNorm⟩ lsm input target
          length := rfl

/-- C4 counterexample input: a 2×3×1 logits tensor, a 2×3 target and
`length = [3, -1]`: the second length is negative, yet
`max(length) = 3` matches `input.size(1)`, so no check fires. -/
def c4Input : List (List (List ℚ)) := [[[0], [0], [0]], [[0], [0], [0]]]

/-- C4 counterexample target tensor. -/
def c4Target : List (List ℤ) := [[0, 0, 0], [0, 0, 0]]

/-- C4 counterexample length vector, with a negative entry. -/
def c4Length : List ℤ := [3, -1]

/-- C4 counterexample: a call with a negative `length[1] = -1` does not
fail: Python slice semantics silently wrap the negative stop, the mask
row becomes [1, 1, 0] (as if the length were `def_max_length - 1 = 2`),
and the call returns a loss value instead of an error. -/
theorem c4_counterexample :
    SCELoss.forward defaultSCELoss (fun r => r) c4Input c4Target c4Length
      = Except.ok 0 := by
  norm_num [SCELoss.forward, c4Input, c4Target, c4Length, buildMask,
    maskRow, pySliceStop, defaultSCELoss, gatherCol, List.max?,
    Int.toNat_ofNat, List.range_succ, show Int.toNat 3 = 3 from rfl]

/-- C4 amended: the only fail-fast length check in `forward` is the
assertion `max_length == input.size(1)`: whenever `max(length)` differs
from the input's sequence dimension the call errors there. A negative
`length[i]` with matching `max(length)` is instead silently wrapped by
Python slice semantics (see `c4_counterexample`), and a too-large
`length[i]` is silently clamped when the input's sequence dimension
equals `max(length)`. -/
theorem c4_amended_assert_on_mismatch (cfg : SCELoss)
    (lsm : List ℚ → List ℚ) (input : List (List (List ℚ)))
    (target : List (List ℤ)) (length : List ℤ) (m : ℤ)
    (hb : target.length ≤ length.length)
    (hm : length.max? = some m)
    (hne : m ≠ ((input.head?.getD []).length : ℤ)) :
    SCELoss.forward cfg lsm input target length =
      Except.error "AssertionError: max_length == input.size(1)" := by
  simp only [SCELoss.forward, buildMask, if_pos hb, hm, if_neg hne]

theorem c4_amended_assert_on_mismatch_witness :
    SCELoss.forward defaultSCELoss (fun r => r) [[[0]]] [[0]] [5] =
      Except.error "AssertionError: max_length == input.size(1)" :=
  c4_amended_assert_on_mismatch defaultSCELoss (fun r => r) [[[0]]] [[0]]
    [5] 5 (by norm_num) rfl (by norm_num)

/-- Lemma: `gatherCol` succeeds and returns the indexed entries when every
index is nonnegative and within its row. -/
theorem gatherCol_ok {rows : List (List ℚ)} {idx : List ℤ}
    (h : List.Forall₂ (fun row j => 0 ≤ j ∧ j.toNat < List.length row)
      rows idx) :
    gatherCol rows idx =
      Except.ok (List.zipWith (fun row j => row.getD j.toNat 0) rows idx) := by
  induction h with
  | nil => rfl
  | cons hpair htail ih => simp [gatherCol, hpair, ih]

/-- C7: with batch 2, `def_max_length = 3` and `length = [2, 0]`, the
second sample's row contributes exactly zero to the loss: the result is
a function of the first sample's first two logit rows and targets only,
for every value of the second sample's logits and (in-range) targets and
of the truncated third target column. -/
theorem c7_zero_length_row_contributes_nothing
    (lsm : List ℚ → List ℚ) (x00 x01 x10 x11 : List ℚ)
    (t00 t01 t02 t10 t11 t12 : ℤ)
    (h00 : 0 ≤ t00 ∧ t00.toNat < (lsm x00).length)
    (h01 : 0 ≤ t01 ∧ t01.toNat < (lsm x01).length)
    (h10 : 0 ≤ t10 ∧ t10.toNat < (lsm x10).length)
    (h11 : 0 ≤ t11 ∧ t11.toNat < (lsm x11).length) :
    SCELoss.forward defaultSCELoss lsm [[x00, x01], [x10, x11]]
      [[t00, t01, t02], [t10, t11, t12]] [2, 0] =
      Except.ok
        (-(((lsm x00).getD t00.toNat 0 + (lsm x01).getD t01.toNat 0) / 2)) := by
  have hg := gatherCol_ok
    (List.Forall₂.cons h00 (List.Forall₂.cons h01
      (List.Forall₂.cons h10 (List.Forall₂.cons h11 List.Forall₂.nil))))
  norm_num [SCELoss.forward, buildMask, maskRow, pySliceStop,
    defaultSCELoss, List.max?, List.range_succ,
    show Int.toNat 2 = 2 from rfl, hg]
  ring

theorem c7_zero_length_row_contributes_nothing_witness :
    SCELoss.forward defaultSCELoss (fun r => r)
      [[[5, 7], [9, 11]], [[13, 17], [19, 23]]]
      [[1, 0, 0], [0, 1, 0]] [2, 0] = Except.ok (-8) := by
  have h := c7_zero_length_row_contributes_nothing (fun r => r)
    [5, 7] [9, 11] [13, 17] [19, 23] 1 0 0 0 1 0
    (by norm_num) (by norm_num) (by norm_num) (by norm_num)
  rw [h]
  norm_num

theorem pySliceStop_natCast (L : ℕ) : pySliceStop (L : ℤ) L = L := by
  rw [pySliceStop, if_neg (by omega), Int.toNat_natCast, min_self]

/-- A row whose length equals the mask width is filled entirely with 1s. -/
theorem maskRow_full (L : ℕ) : maskRow (L : ℤ) L = List.replicate L (1 : ℚ) := by
  rw [List.eq_replicate_iff]
  refine ⟨by simp [maskRow], ?_⟩
  intro b hb
  simp only [maskRow, List.mem_map, List.mem_range] at hb
  obtain ⟨t, ht, rfl⟩ := hb
  rw [pySliceStop_natCast, if_pos ht]

theorem foldl_max_replicate (a : ℤ) : ∀ k,
    List.foldl max a (List.replicate k a) = a
  | 0 => rfl
  | k + 1 => by
      rw [List.replicate_succ, List.foldl_cons, max_self]
      exact foldl_max_replicate a k

theorem max?_replicate_pos (B : ℕ) (a : ℤ) (hB : 0 < B) :
    (List.replicate B a).max? = some a := by
  obtain ⟨k, rfl⟩ : ∃ k, B = k + 1 := ⟨B - 1, by omega⟩
  rw [List.replicate_succ]
  show some (List.foldl max a (List.replicate k a)) = some a
  rw [foldl_max_replicate]

theorem flatten_replicate_replicate (B L : ℕ) (x : ℚ) :
    (List.replicate B (List.replicate L x)).flatten
      = List.replicate (B * L) x := by
  induction B with
  | zero => simp
  | succ n ih =>
      rw [List.replicate_succ, List.flatten_cons, ih, ← List.replicate_add]
      congr 1
      ring

/-- Lemma: `zipWith` distributes over `flatten` of row-aligned nested lists. -/
theorem zipWith_flatten {α β γ : Type} (f : α → β → γ) :
    ∀ {as : List (List α)} {bs : List (List β)},
      List.Forall₂ (fun a b => List.length a = List.length b) as bs →
      List.zipWith f as.flatten bs.flatten =
        (List.zipWith (List.zipWith f) as bs).flatten := by
  intro as bs h
  induction h with
  | nil => rfl
  | cons hpair htail ih =>
      rw [List.flatten_cons, List.flatten_cons,
        List.zipWith_append _ _ _ _ _ hpair, List.zipWith_cons_cons,
        List.flatten_cons, ih]

/-- Summing `-x * m` against an all-ones mask negates the plain sum. -/
theorem sum_neg_mul_ones (xs : List ℚ) :
    ((xs.zip (List.replicate xs.length (1 : ℚ))).map
      (fun p => -p.1 * p.2)).sum = -(xs.sum) := by
  induction xs with
  | nil => simp
  | cons a as ih =>
      simp only [List.length_cons, List.replicate_succ, List.zip_cons_cons,
        List.map_cons, List.sum_cons, ih]
      ring

/-- Reference definition following the spec's words, for comparison with
`SCELoss.forward`: the standard mean cross-entropy over the batch — for
each sample the sum over timesteps of the negative log-probability
(under `lsm`) of the true class, averaged over the batch. -/
def specMeanCrossEntropy (lsm : List ℚ → List ℚ)
    (input : List (List (List ℚ))) (target : List (List ℤ)) : ℚ :=
  (List.zipWith (fun mat trow =>
      (List.zipWith (fun cr j => -((lsm cr).getD j.toNat 0)) mat trow).sum)
    input target).sum / (target.length : ℚ)

/-- C8: when every `length[i]` equals `def_max_length` (mask all ones)
and `sample_normalize` is set with `sequence_normalize` unset, the
masked loss equals the standard mean cross-entropy over the batch. -/
theorem c8_full_mask_is_mean_ce (cfg : SCELoss) (lsm : List ℚ → List ℚ)
    (input : List (List (List ℚ))) (target : List (List ℤ)) (B L : ℕ)
    (hseq : cfg.sequence_normalize = false)
    (hsamp : cfg.sample_normalize = true)
    (hB : 0 < B) (htB : target.length = B)
    (htL : ∀ row ∈ target, row.length = L)
    (hvalid : List.Forall₂
      (List.Forall₂ (fun cr j => 0 ≤ j ∧ j.toNat < (lsm cr).length))
      input target) :
    SCELoss.forward cfg lsm input target (List.replicate B (L : ℤ)) =
      Except.ok (specMeanCrossEntropy lsm input target) := by
  have rowlens : List.Forall₂ (fun mat trow => mat.length = trow.length)
      input target :=
    List.Forall₂.imp (fun a b h => h.length_eq) hvalid
  have hhead : (target.head?.getD []).length = L := by
    cases target with
    | nil => simp at htB; omega
    | cons r rs => simpa using htL r (List.mem_cons_self r rs)
  have hihead : (input.head?.getD []).length = L := by
    cases rowlens with
    | nil => simp at htB; omega
    | cons hpair htail =>
        simp only [List.head?_cons, Option.getD_some]
        exact hpair.trans (htL _ (List.mem_cons_self _ _))
  have hbm : buildMask (List.replicate B (L : ℤ)) target.length
      (target.head?.getD []).length
      = Except.ok (List.replicate B (List.replicate L (1 : ℚ))) := by
    rw [buildMask, if_pos (by simp [htB])]
    rw [hhead, htB, List.take_of_length_le (by simp), List.map_replicate,
      maskRow_full]
  have hmax : (List.replicate B (L : ℤ)).max? = some (L : ℤ) :=
    max?_replicate_pos B _ hB
  have htake : target.map (List.take L) = target := by
    conv_rhs => rw [← List.map_id target]
    exact List.map_congr_left fun row hr =>
      List.take_of_length_le (le_of_eq (htL row hr))
  have hmtake : (List.replicate B (List.replicate L (1 : ℚ))).map
      (List.take L) = List.replicate B (List.replicate L (1 : ℚ)) := by
    rw [List.map_replicate, List.take_of_length_le (by simp)]
  have hmf : (List.replicate B (List.replicate L (1 : ℚ))).flatten
      = List.replicate (B * L) 1 := flatten_replicate_replicate B L 1
  have hflat : List.Forall₂ (fun row j => 0 ≤ j ∧ j.toNat < List.length row)
      (input.flatten.map lsm) target.flatten :=
    List.forall₂_map_left_iff.mpr (List.rel_flatten hvalid)
  have hgather := gatherCol_ok hflat
  have hNt : target.flatten.length = B * L := by
    rw [List.length_flatten]
    have hmap : target.map List.length = List.replicate B L := by
      rw [List.eq_replicate_iff]
      refine ⟨by simp [htB], ?_⟩
      intro b hb
      obtain ⟨row, hr, rfl⟩ := List.mem_map.1 hb
      exact htL row hr
    rw [hmap, List.sum_replicate, smul_eq_mul]
  have hNi : input.flatten.length = target.flatten.length :=
    (List.rel_flatten hvalid).length_eq
  have hglen : (List.zipWith (fun row j => row.getD j.toNat 0)
      (input.flatten.map lsm) target.flatten).length = B * L := by
    rw [List.length_zipWith, List.length_map, hNi, hNt, min_self]
  have haligned : List.Forall₂ (fun a b => List.length a = List.length b)
      (input.map (List.map lsm)) target :=
    List.forall₂_map_left_iff.mpr
      (List.Forall₂.imp (fun a b h => by simpa using h) rowlens)
  have hkey : -(List.zipWith (fun row j => row.getD j.toNat 0)
        (input.flatten.map lsm) target.flatten).sum
      = (List.zipWith (fun mat trow =>
          (List.zipWith (fun cr j => -((lsm cr).getD j.toNat 0)) mat trow).sum)
        input target).sum := by
    rw [List.map_flatten, zipWith_flatten _ haligned, List.sum_flatten,
      List.map_zipWith, List.zipWith_map_left]
    simp only [List.sum_neg, List.map_zipWith, List.zipWith_map_left]
  simp only [SCELoss.forward, hbm, hmax]
  rw [if_pos (by rw [hihead])]
  rw [hhead, pySliceStop_natCast, htake, hmtake, hmf]
  simp only [hgather]
  rw [if_pos (by rw [hglen, List.length_replicate])]
  rw [hseq, hsamp, if_neg Bool.false_ne_true, if_pos rfl]
  rw [← hglen, sum_neg_mul_ones, hkey, specMeanCrossEntropy]

theorem c8_full_mask_is_mean_ce_witness :
    SCELoss.forward defaultSCELoss (fun r => r) [[[2, 4]]] [[1]]
      [(1 : ℤ)] = Except.ok (-4) := by
  have h := c8_full_mask_is_mean_ce defaultSCELoss (fun r => r)
    [[[2, 4]]] [[1]] 1 1 rfl rfl (by norm_num) rfl
    (by intro row hr; simp only [List.mem_singleton] at hr; rw [hr]; rfl)
    (List.Forall₂.cons (List.Forall₂.cons (by decide) List.Forall₂.nil)
      List.Forall₂.nil)
  have h2 : specMeanCrossEntropy (fun r => r) [[[2, 4]]] [[1]] = -4 := by
    norm_num [specMeanCrossEntropy, show Int.toNat 1 = 1 from rfl]
  exact h.trans (by rw [h2])

end HTR
